import Mathlib

/-!
Verification of the PIAM&V project console (`piamv_console.py`).

The program is a single-file CLI record keeper: a `Project` aggregate
(rules, steps, sources) persisted one-file-per-project under
`data/projects/`.  We embed the data model and the store operations
shallowly: the filesystem becomes a function from path strings to
optional persisted payloads, `json.dumps`/`json.loads` of the payload
dictionaries becomes the identity on a mirror `…Dict` structure
(JSON round-trips the string fields and lists verbatim), and
`datetime.utcnow().isoformat()` becomes an explicit `now : String`
argument threaded into each operation that stamps a timestamp.
Python `x or y` truthiness on optional strings is modelled by `pyOr`.
-/

namespace Piamv

/-- Python `str.strip()` with no argument: drop leading and trailing
whitespace characters. -/
def pyStrip (s : String) : String :=
  ⟨((s.data.dropWhile Char.isWhitespace).reverse.dropWhile
      Char.isWhitespace).reverse⟩

/-- Python `str.replace(" ", "-")`: the pattern is a single character,
so the replacement is a character-wise map. -/
def replaceSpaces (s : String) : String :=
  ⟨s.data.map (fun c => if c = ' ' then '-' else c)⟩

/-- Python `str.lower()`, character-wise (the step names involved are
ASCII, where Python and `Char.toLower` agree). -/
def pyLower (s : String) : String :=
  ⟨s.data.map Char.toLower⟩

/-- Python `a or b` for `a : Optional[str]`: `None` and `""` are falsy. -/
def pyOr (a : Option String) (b : String) : String :=
  match a with
  | none => b
  | some s => if s = "" then b else s

/-- `Rule` dataclass: source, title, text, section, page, created_at. -/
structure Rule where
  source : String
  title : String
  text : String
  «section» : String
  page : String
  created_at : String
deriving Repr, DecidableEq

/-- `SourceDocument` dataclass: name, path, notes, added_at. -/
structure SourceDocument where
  name : String
  path : String
  notes : String
  added_at : String
deriving Repr, DecidableEq

/-- `ProjectStep` dataclass: name, status (default "pending"), notes (default ""). -/
structure ProjectStep where
  name : String
  status : String
  notes : String
deriving Repr, DecidableEq

/-- `Project` dataclass: name, project_type, created_at, rules, steps, sources. -/
structure Project where
  name : String
  project_type : String
  created_at : String
  rules : List Rule
  steps : List ProjectStep
  sources : List SourceDocument
deriving Repr, DecidableEq

/-- The dict produced by `rule.__dict__` inside `Project.to_dict`. -/
structure RuleDict where
  source : String
  title : String
  text : String
  «section» : String
  page : String
  created_at : String
deriving Repr, DecidableEq

/-- The dict produced by `source.__dict__` inside `Project.to_dict`. -/
structure SourceDict where
  name : String
  path : String
  notes : String
  added_at : String
deriving Repr, DecidableEq

/-- The dict produced by `step.__dict__` inside `Project.to_dict`. -/
structure StepDict where
  name : String
  status : String
  notes : String
deriving Repr, DecidableEq

/-- The payload dict built by `Project.to_dict` and persisted as JSON. -/
structure ProjectDict where
  name : String
  project_type : String
  created_at : String
  rules : List RuleDict
  steps : List StepDict
  sources : List SourceDict
deriving Repr, DecidableEq

/-- `rule.__dict__` as used by `Project.to_dict`. -/
def Rule.toDict (r : Rule) : RuleDict :=
  ⟨r.source, r.title, r.text, r.«section», r.page, r.created_at⟩

/-- `Rule(**rule)` as used by `Project.from_dict`. -/
def Rule.ofDict (d : RuleDict) : Rule :=
  ⟨d.source, d.title, d.text, d.«section», d.page, d.created_at⟩

/-- `source.__dict__` as used by `Project.to_dict`. -/
def SourceDocument.toDict (s : SourceDocument) : SourceDict :=
  ⟨s.name, s.path, s.notes, s.added_at⟩

/-- `SourceDocument(**source)` as used by `Project.from_dict`. -/
def SourceDocument.ofDict (d : SourceDict) : SourceDocument :=
  ⟨d.name, d.path, d.notes, d.added_at⟩

/-- `step.__dict__` as used by `Project.to_dict`. -/
def ProjectStep.toDict (s : ProjectStep) : StepDict :=
  ⟨s.name, s.status, s.notes⟩

/-- `ProjectStep(**step)` as used by `Project.from_dict`. -/
def ProjectStep.ofDict (d : StepDict) : ProjectStep :=
  ⟨d.name, d.status, d.notes⟩

/-- `Project.to_dict` (piamv_console.py lines 51-59). -/
def Project.to_dict (p : Project) : ProjectDict :=
  { name := p.name
    project_type := p.project_type
    created_at := p.created_at
    rules := p.rules.map Rule.toDict
    steps := p.steps.map ProjectStep.toDict
    sources := p.sources.map SourceDocument.toDict }

/-- `Project.from_dict` (piamv_console.py lines 61-70).  The payloads the
program ever reads back were written by `to_dict`, so every key is
present and the `payload.get(…, [])` defaults never fire. -/
def Project.from_dict (d : ProjectDict) : Project :=
  { name := d.name
    project_type := d.project_type
    created_at := d.created_at
    rules := d.rules.map Rule.ofDict
    steps := d.steps.map ProjectStep.ofDict
    sources := d.sources.map SourceDocument.ofDict }

/-- `DEFAULT_PIAMV_STEPS` (piamv_console.py lines 73-81). -/
def DEFAULT_PIAMV_STEPS : List String :=
  [ "Project scoping"
  , "Baseline definition"
  , "Measurement & verification plan"
  , "Implementation & commissioning"
  , "Data collection"
  , "Analysis & savings calculation"
  , "Reporting & assurance" ]

/-- `project_path` (piamv_console.py lines 88-90):
`DATA_DIR / f"{name.strip().replace(' ', '-')}.json"`. -/
def project_path (name : String) : String :=
  "data/projects/" ++ replaceSpaces (pyStrip name) ++ ".json"

/-- The filesystem under `DATA_DIR`, as a map from record paths to the
persisted payload (JSON (de)serialization of the payload dict is the
identity in this embedding). -/
def Store : Type := String → Option ProjectDict

/-- The empty data directory. -/
def emptyStore : Store := fun _ => none

/-- Error outcomes; each corresponds to a `raise SystemExit(…)` in the
source.  `stepNotFound` carries the ordered step-name list that the
source interpolates into its message via `", ".join(...)`. -/
inductive Err where
  | notFound (name : String)
  | alreadyExists (name : String)
  | stepNotFound (step : String) (available : List String)
deriving Repr, DecidableEq

/-- `load_project` (piamv_console.py lines 93-98). -/
def load_project (s : Store) (name : String) : Except Err Project :=
  match s (project_path name) with
  | none => .error (.notFound name)
  | some payload => .ok (Project.from_dict payload)

/-- `save_project` (piamv_console.py lines 101-104): full overwrite of
the record at `project_path project.name`. -/
def save_project (s : Store) (p : Project) : Store :=
  fun k => if k = project_path p.name then some p.to_dict else s k

/-- The `Project(...)` literal built by `init_project` (piamv_console.py
lines 110-118): type "PIAM&V", the seven default steps each constructed
as `ProjectStep(name=step)` (status "pending", notes ""), no rules, no
sources. -/
def newProject (name now : String) : Project :=
  { name := name, project_type := "PIAM&V", created_at := now
    rules := []
    steps := DEFAULT_PIAMV_STEPS.map (fun n => ProjectStep.mk n "pending" "")
    sources := [] }

/-- `init_project` (piamv_console.py lines 107-120). -/
def init_project (s : Store) (name now : String) :
    Except Err (Store × Project) :=
  match s (project_path name) with
  | some _ => .error (.alreadyExists name)
  | none => .ok (save_project s (newProject name now), newProject name now)

/-- `add_rule` (piamv_console.py lines 123-134).  `sec`/`page` model the
optional `--section`/`--page` arguments (`args.section or ""`), and
`now` the `created_at` default factory stamped at `Rule` construction. -/
def add_rule (s : Store) (projName source title text : String)
    (sec page : Option String) (now : String) :
    Except Err (Store × Project) :=
  match load_project s projName with
  | .error e => .error e
  | .ok project =>
    let rule : Rule :=
      { source := source, title := title, text := text
        «section» := pyOr sec "", page := pyOr page "", created_at := now }
    let project' := { project with rules := project.rules ++ [rule] }
    .ok (save_project s project', project')

/-- `add_source` (piamv_console.py lines 152-157).  `notes` models the
optional `--notes` argument (`args.notes or ""`), and `now` the
`added_at` default factory stamped at `SourceDocument` construction. -/
def add_source (s : Store) (projName name path : String)
    (notes : Option String) (now : String) :
    Except Err (Store × Project) :=
  match load_project s projName with
  | .error e => .error e
  | .ok project =>
    let src : SourceDocument :=
      { name := name, path := path, notes := pyOr notes "", added_at := now }
    let project' := { project with sources := project.sources ++ [src] }
    .ok (save_project s project', project')

/-- The loop body of `update_step` (piamv_console.py lines 172-178):
walk the steps in storage order, rewrite the first whose lowercased name
equals the lowercased requested step name (`status` unconditionally,
`notes` through Python `or`), and report `none` when no step matches. -/
def updateSteps (steps : List ProjectStep) (stepName status : String)
    (notes : Option String) : Option (List ProjectStep) :=
  match steps with
  | [] => none
  | st :: rest =>
    if pyLower st.name = pyLower stepName then
      some ({ st with status := status, notes := pyOr notes st.notes } :: rest)
    else
      (updateSteps rest stepName status notes).map (fun r => st :: r)

/-- `update_step` (piamv_console.py lines 170-180): load, first
case-insensitive match wins, save only on a match; on no match raise
with the ordered list of available step names and save nothing. -/
def update_step (s : Store) (projName stepName status : String)
    (notes : Option String) : Except Err (Store × Project) :=
  match load_project s projName with
  | .error e => .error e
  | .ok project =>
    match updateSteps project.steps stepName status notes with
    | some steps' =>
      let project' := { project with steps := steps' }
      .ok (save_project s project', project')
    | none =>
      .error (.stepNotFound stepName (project.steps.map (fun st => st.name)))

/-- One CLI invocation's store-mutating command, with its timestamp
argument where the source stamps one. -/
inductive Op where
  | initOp (name now : String)
  | addRuleOp (project source title text : String)
      (sec page : Option String) (now : String)
  | addSourceOp (project name path : String)
      (notes : Option String) (now : String)
  | updateStepOp (project step status : String) (notes : Option String)
deriving Repr, DecidableEq

/-- The project name an operation addresses the store under. -/
def Op.target : Op → String
  | .initOp n _ => n
  | .addRuleOp n _ _ _ _ _ _ => n
  | .addSourceOp n _ _ _ _ => n
  | .updateStepOp n _ _ _ => n

/-- Run one command against the store; a `SystemExit` leaves the
filesystem exactly as it was (no operation writes before it fails). -/
def exec (s : Store) : Op → Store
  | .initOp name now =>
    match init_project s name now with
    | .ok (s', _) => s'
    | .error _ => s
  | .addRuleOp proj source title text sec page now =>
    match add_rule s proj source title text sec page now with
    | .ok (s', _) => s'
    | .error _ => s
  | .addSourceOp proj name path notes now =>
    match add_source s proj name path notes now with
    | .ok (s', _) => s'
    | .error _ => s
  | .updateStepOp proj step status notes =>
    match update_step s proj step status notes with
    | .ok (s', _) => s'
    | .error _ => s

/-- Run a sequence of commands left to right. -/
def execAll (s : Store) (ops : List Op) : Store :=
  ops.foldl exec s

/-- Every persisted payload sits at the record path computed from its
own `name` field.  `save_project` writes `p.to_dict` only at
`project_path p.name`, so every store the program can produce is
well-keyed. -/
def WellKeyed (s : Store) : Prop :=
  ∀ k pd, s k = some pd → project_path pd.name = k

/-- Payload-level invariant across one store step (claim C7's content):
creation timestamp fixed, step names fixed, rules and sources extended
only at the tail. -/
def Inv (pd pd' : ProjectDict) : Prop :=
  pd'.created_at = pd.created_at ∧
  pd'.steps.map StepDict.name = pd.steps.map StepDict.name ∧
  (∃ t, pd'.rules = pd.rules ++ t) ∧
  (∃ t, pd'.sources = pd.sources ++ t)

/-- Project-level version of the invariant. -/
def ProjInv (p p' : Project) : Prop :=
  p'.created_at = p.created_at ∧
  p'.steps.map ProjectStep.name = p.steps.map ProjectStep.name ∧
  (∃ t, p'.rules = p.rules ++ t) ∧
  (∃ t, p'.sources = p.sources ++ t)

/-- A concrete one-project store used to instantiate the theorems: the
result of `init --name "Acme HQ"` on an empty data directory, with the
creation timestamp "t0". -/
def demoStore : Store :=
  exec emptyStore (.initOp "Acme HQ" "t0")

/-- The project `init --name "Acme HQ"` builds (timestamp "t0"). -/
def demoProject : Project :=
  newProject "Acme HQ" "t0"

/-! ### Round-trip lemmas for the payload dictionaries -/

@[simp]
theorem ruleOfDict_toDict (r : Rule) : Rule.ofDict (Rule.toDict r) = r := by
  cases r; rfl

@[simp]
theorem ruleToDict_ofDict (d : RuleDict) : Rule.toDict (Rule.ofDict d) = d := by
  cases d; rfl

@[simp]
theorem sourceOfDict_toDict (s : SourceDocument) :
    SourceDocument.ofDict (SourceDocument.toDict s) = s := by
  cases s; rfl

@[simp]
theorem sourceToDict_ofDict (d : SourceDict) :
    SourceDocument.toDict (SourceDocument.ofDict d) = d := by
  cases d; rfl

@[simp]
theorem stepOfDict_toDict (s : ProjectStep) :
    ProjectStep.ofDict (ProjectStep.toDict s) = s := by
  cases s; rfl

@[simp]
theorem stepToDict_ofDict (d : StepDict) :
    ProjectStep.toDict (ProjectStep.ofDict d) = d := by
  cases d; rfl

@[simp]
theorem Project.from_dict_to_dict (p : Project) :
    Project.from_dict (Project.to_dict p) = p := by
  cases p
  simp [Project.to_dict, Project.from_dict, List.map_map, Function.comp_def]

@[simp]
theorem Project.to_dict_from_dict (d : ProjectDict) :
    Project.to_dict (Project.from_dict d) = d := by
  cases d
  simp [Project.to_dict, Project.from_dict, List.map_map, Function.comp_def]

/-! ### Save / load lemmas -/

theorem save_project_self (s : Store) (p : Project) :
    save_project s p (project_path p.name) = some p.to_dict := by
  simp [save_project]

theorem save_project_frame (s : Store) (p : Project) (k : String)
    (hk : k ≠ project_path p.name) : save_project s p k = s k := by
  simp [save_project, hk]

theorem load_after_save (s : Store) (p : Project) :
    load_project (save_project s p) p.name = .ok p := by
  simp [load_project, save_project_self]

theorem load_project_ok_iff (s : Store) (name : String) (p : Project) :
    load_project s name = .ok p ↔
      ∃ pd, s (project_path name) = some pd ∧ p = Project.from_dict pd := by
  unfold load_project
  cases h : s (project_path name) with
  | none => simp
  | some pd =>
    constructor
    · intro hok
      exact ⟨pd, rfl, by injection hok with h'; exact h'.symm⟩
    · rintro ⟨pd', hpd', rfl⟩
      injection hpd' with h'
      simp [h']

theorem load_project_of_some (s : Store) (name : String) (pd : ProjectDict)
    (h : s (project_path name) = some pd) :
    load_project s name = .ok (Project.from_dict pd) := by
  simp [load_project, h]

theorem load_project_of_none (s : Store) (name : String)
    (h : s (project_path name) = none) :
    load_project s name = .error (.notFound name) := by
  simp [load_project, h]

/-! ### `updateSteps` lemmas -/

theorem updateSteps_eq_none (steps : List ProjectStep)
    (stepName status : String) (notes : Option String)
    (h : ∀ st ∈ steps, pyLower st.name ≠ pyLower stepName) :
    updateSteps steps stepName status notes = none := by
  induction steps with
  | nil => rfl
  | cons st rest ih =>
    have hst := h st (List.mem_cons_self st rest)
    have hrest : ∀ x ∈ rest, pyLower x.name ≠ pyLower stepName :=
      fun x hx => h x (List.mem_cons_of_mem st hx)
    simp [updateSteps, hst, ih hrest]

theorem updateSteps_split (pre post : List ProjectStep) (st : ProjectStep)
    (stepName status : String) (notes : Option String)
    (hpre : ∀ x ∈ pre, pyLower x.name ≠ pyLower stepName)
    (hst : pyLower st.name = pyLower stepName) :
    updateSteps (pre ++ st :: post) stepName status notes =
      some (pre ++ { st with status := status, notes := pyOr notes st.notes } :: post) := by
  induction pre with
  | nil => simp [updateSteps, hst]
  | cons x rest ih =>
    have hx := hpre x (List.mem_cons_self x rest)
    have hrest : ∀ y ∈ rest, pyLower y.name ≠ pyLower stepName :=
      fun y hy => hpre y (List.mem_cons_of_mem x hy)
    simp [updateSteps, hx, ih hrest]

theorem updateSteps_names (steps res : List ProjectStep)
    (stepName status : String) (notes : Option String)
    (h : updateSteps steps stepName status notes = some res) :
    res.map ProjectStep.name = steps.map ProjectStep.name ∧
      res.length = steps.length := by
  induction steps generalizing res with
  | nil => simp [updateSteps] at h
  | cons st rest ih =>
    by_cases hm : pyLower st.name = pyLower stepName
    · simp [updateSteps, hm] at h
      subst h
      simp
    · simp [updateSteps, hm] at h
      obtain ⟨r, hr, hres⟩ := h
      obtain ⟨hnames, hlen⟩ := ih r hr
      subst hres
      simp [hnames, hlen]

/-- Characterization of a successful `update_step`: the saved and
returned project rewrites exactly the first case-insensitive match. -/
theorem update_step_eq (s : Store) (projName stepName status : String)
    (notes : Option String) (p : Project)
    (pre post : List ProjectStep) (st : ProjectStep)
    (hload : load_project s projName = .ok p)
    (hsplit : p.steps = pre ++ st :: post)
    (hpre : ∀ x ∈ pre, pyLower x.name ≠ pyLower stepName)
    (hst : pyLower st.name = pyLower stepName) :
    update_step s projName stepName status notes =
      .ok (save_project s
            { p with steps :=
                pre ++ { st with status := status, notes := pyOr notes st.notes } :: post },
          { p with steps :=
                pre ++ { st with status := status, notes := pyOr notes st.notes } :: post }) := by
  unfold update_step
  rw [hload]
  dsimp only
  rw [hsplit, updateSteps_split pre post st stepName status notes hpre hst]

/-- A failed `update_step` lookup: error carries the ordered step names
and nothing is written. -/
theorem update_step_no_match (s : Store) (projName stepName status : String)
    (notes : Option String) (p : Project)
    (hload : load_project s projName = .ok p)
    (h : ∀ st ∈ p.steps, pyLower st.name ≠ pyLower stepName) :
    update_step s projName stepName status notes =
      .error (.stepNotFound stepName (p.steps.map (fun st => st.name))) := by
  unfold update_step
  rw [hload]
  dsimp only
  rw [updateSteps_eq_none p.steps stepName status notes h]

/-! ### Operation characterizations on the store -/

theorem init_project_of_some (s : Store) (name now : String)
    (pd : ProjectDict) (h : s (project_path name) = some pd) :
    init_project s name now = .error (.alreadyExists name) := by
  unfold init_project
  rw [h]

theorem init_project_of_none (s : Store) (name now : String)
    (h : s (project_path name) = none) :
    init_project s name now =
      .ok (save_project s (newProject name now), newProject name now) := by
  unfold init_project
  rw [h]

theorem add_rule_of_some (s : Store) (projName source title text : String)
    (sec page : Option String) (now : String) (pd : ProjectDict)
    (h : s (project_path projName) = some pd) :
    add_rule s projName source title text sec page now =
      (let p := Project.from_dict pd
       let p' := { p with rules := p.rules ++
         [{ source := source, title := title, text := text
            «section» := pyOr sec "", page := pyOr page "", created_at := now }] }
       .ok (save_project s p', p')) := by
  unfold add_rule
  rw [load_project_of_some s projName pd h]

theorem add_source_of_some (s : Store) (projName name path : String)
    (notes : Option String) (now : String) (pd : ProjectDict)
    (h : s (project_path projName) = some pd) :
    add_source s projName name path notes now =
      (let p := Project.from_dict pd
       let p' := { p with sources := p.sources ++
         [{ name := name, path := path, notes := pyOr notes "", added_at := now }] }
       .ok (save_project s p', p')) := by
  unfold add_source
  rw [load_project_of_some s projName pd h]

/-! ### Well-keyed stores and the append-only invariant -/

theorem wellKeyed_empty : WellKeyed emptyStore := by
  intro k pd h
  cases h

theorem wellKeyed_save (s : Store) (p : Project) (hW : WellKeyed s) :
    WellKeyed (save_project s p) := by
  intro k pd h
  unfold save_project at h
  by_cases hk : k = project_path p.name
  · rw [if_pos hk] at h
    injection h with h
    rw [← h, hk]
    rfl
  · rw [if_neg hk] at h
    exact hW k pd h

theorem Inv.refl (pd : ProjectDict) : Inv pd pd :=
  ⟨rfl, rfl, ⟨[], by simp⟩, ⟨[], by simp⟩⟩

theorem Inv.trans (a b c : ProjectDict) (h1 : Inv a b) (h2 : Inv b c) :
    Inv a c := by
  obtain ⟨hc1, hn1, ⟨t1, ht1⟩, ⟨u1, hu1⟩⟩ := h1
  obtain ⟨hc2, hn2, ⟨t2, ht2⟩, ⟨u2, hu2⟩⟩ := h2
  exact ⟨hc2.trans hc1, hn2.trans hn1,
    ⟨t1 ++ t2, by rw [ht2, ht1, List.append_assoc]⟩,
    ⟨u1 ++ u2, by rw [hu2, hu1, List.append_assoc]⟩⟩

theorem exec_initOp_some (s : Store) (name now : String) (pd : ProjectDict)
    (h : s (project_path name) = some pd) :
    exec s (.initOp name now) = s := by
  unfold exec
  dsimp only
  rw [init_project_of_some s name now pd h]

theorem exec_initOp_none (s : Store) (name now : String)
    (h : s (project_path name) = none) :
    exec s (.initOp name now) = save_project s (newProject name now) := by
  unfold exec
  dsimp only
  rw [init_project_of_none s name now h]

theorem exec_addRuleOp_none (s : Store)
    (projName source title text : String) (sec page : Option String)
    (now : String) (h : s (project_path projName) = none) :
    exec s (.addRuleOp projName source title text sec page now) = s := by
  unfold exec add_rule
  dsimp only
  rw [load_project_of_none s projName h]

theorem exec_addRuleOp_some (s : Store)
    (projName source title text : String) (sec page : Option String)
    (now : String) (pd : ProjectDict)
    (h : s (project_path projName) = some pd) :
    exec s (.addRuleOp projName source title text sec page now) =
      save_project s
        { Project.from_dict pd with rules := (Project.from_dict pd).rules ++
            [{ source := source, title := title, text := text
               «section» := pyOr sec "", page := pyOr page ""
               created_at := now }] } := by
  unfold exec
  dsimp only
  rw [add_rule_of_some s projName source title text sec page now pd h]

theorem exec_addSourceOp_none (s : Store) (projName name path : String)
    (notes : Option String) (now : String)
    (h : s (project_path projName) = none) :
    exec s (.addSourceOp projName name path notes now) = s := by
  unfold exec add_source
  dsimp only
  rw [load_project_of_none s projName h]

theorem exec_addSourceOp_some (s : Store) (projName name path : String)
    (notes : Option String) (now : String) (pd : ProjectDict)
    (h : s (project_path projName) = some pd) :
    exec s (.addSourceOp projName name path notes now) =
      save_project s
        { Project.from_dict pd with sources := (Project.from_dict pd).sources ++
            [{ name := name, path := path, notes := pyOr notes ""
               added_at := now }] } := by
  unfold exec
  dsimp only
  rw [add_source_of_some s projName name path notes now pd h]

theorem exec_updateStepOp_none (s : Store) (projName stepName status : String)
    (notes : Option String) (h : s (project_path projName) = none) :
    exec s (.updateStepOp projName stepName status notes) = s := by
  unfold exec update_step
  dsimp only
  rw [load_project_of_none s projName h]

theorem exec_updateStepOp_nomatch (s : Store)
    (projName stepName status : String) (notes : Option String)
    (pd : ProjectDict) (h : s (project_path projName) = some pd)
    (hn : updateSteps (Project.from_dict pd).steps stepName status notes = none) :
    exec s (.updateStepOp projName stepName status notes) = s := by
  unfold exec update_step
  dsimp only
  rw [load_project_of_some s projName pd h]
  dsimp only
  rw [hn]

theorem exec_updateStepOp_match (s : Store)
    (projName stepName status : String) (notes : Option String)
    (pd : ProjectDict) (res : List ProjectStep)
    (h : s (project_path projName) = some pd)
    (hr : updateSteps (Project.from_dict pd).steps stepName status notes = some res) :
    exec s (.updateStepOp projName stepName status notes) =
      save_project s { Project.from_dict pd with steps := res } := by
  unfold exec update_step
  dsimp only
  rw [load_project_of_some s projName pd h]
  dsimp only
  rw [hr]

/-- Each command either aborts, leaving the filesystem untouched, or
performs a single `save_project` of a project whose `name` is the
operation's argument (for `init`) or the loaded record's own name. -/
theorem exec_cases (s : Store) (op : Op) :
    exec s op = s ∨
    ∃ p', exec s op = save_project s p' ∧
      (p'.name = op.target ∨
        ∃ pd, s (project_path op.target) = some pd ∧ p'.name = pd.name) := by
  cases op with
  | initOp name now =>
    cases hsp : s (project_path name) with
    | some q => exact .inl (exec_initOp_some s name now q hsp)
    | none => exact .inr ⟨_, exec_initOp_none s name now hsp, .inl rfl⟩
  | addRuleOp proj source title text sec page now =>
    cases hsp : s (project_path proj) with
    | none => exact .inl (exec_addRuleOp_none s proj source title text sec page now hsp)
    | some q =>
      exact .inr ⟨_, exec_addRuleOp_some s proj source title text sec page now q hsp,
        .inr ⟨q, hsp, rfl⟩⟩
  | addSourceOp proj name path notes now =>
    cases hsp : s (project_path proj) with
    | none => exact .inl (exec_addSourceOp_none s proj name path notes now hsp)
    | some q =>
      exact .inr ⟨_, exec_addSourceOp_some s proj name path notes now q hsp,
        .inr ⟨q, hsp, rfl⟩⟩
  | updateStepOp proj step status notes =>
    cases hsp : s (project_path proj) with
    | none => exact .inl (exec_updateStepOp_none s proj step status notes hsp)
    | some q =>
      cases hus : updateSteps (Project.from_dict q).steps step status notes with
      | none => exact .inl (exec_updateStepOp_nomatch s proj step status notes q hsp hus)
      | some res =>
        exact .inr ⟨_, exec_updateStepOp_match s proj step status notes q res hsp hus,
          .inr ⟨q, hsp, rfl⟩⟩

theorem exec_wellKeyed (s : Store) (op : Op) (hW : WellKeyed s) :
    WellKeyed (exec s op) := by
  rcases exec_cases s op with he | ⟨p', he, -⟩
  · rw [he]; exact hW
  · rw [he]; exact wellKeyed_save s p' hW

/-- On a well-keyed store, a command only writes at the record path of
the project name it targets. -/
theorem exec_key (s : Store) (op : Op) (hW : WellKeyed s) (k : String)
    (hk : k ≠ project_path op.target) : exec s op k = s k := by
  rcases exec_cases s op with he | ⟨p', he, hn⟩
  · rw [he]
  · rw [he]
    refine save_project_frame s p' k ?_
    intro hke
    apply hk
    rcases hn with hn | ⟨pd, hpd, hn⟩
    · rw [hke, hn]
    · rw [hke, hn, hW (project_path op.target) pd hpd]

theorem ProjInv.toDict (p p' : Project) (h : ProjInv p p') :
    Inv (Project.to_dict p) (Project.to_dict p') := by
  obtain ⟨hc, hn, ⟨t, ht⟩, ⟨u, hu⟩⟩ := h
  refine ⟨hc, ?_, ⟨t.map Rule.toDict, ?_⟩, ⟨u.map SourceDocument.toDict, ?_⟩⟩
  · simpa [Project.to_dict, List.map_map, Function.comp_def] using hn
  · simp [Project.to_dict, ht]
  · simp [Project.to_dict, hu]

/-- One command preserves the record invariant at every occupied path of
a well-keyed store. -/
theorem exec_inv (s : Store) (op : Op) (k : String) (pd : ProjectDict)
    (hW : WellKeyed s) (h : s k = some pd) :
    ∃ pd', exec s op k = some pd' ∧ Inv pd pd' := by
  have write_case :
      ∀ (p' : Project), project_path p'.name = project_path op.target →
        (k = project_path op.target → Inv pd (Project.to_dict p')) →
        ∃ pd', save_project s p' k = some pd' ∧ Inv pd pd' := by
    intro p' hname hInv
    by_cases hk : k = project_path op.target
    · refine ⟨Project.to_dict p', ?_, hInv hk⟩
      unfold save_project
      rw [if_pos (by rw [hname, hk])]
    · refine ⟨pd, ?_, Inv.refl pd⟩
      rw [save_project_frame s p' k (by rw [hname]; exact hk)]
      exact h
  cases op with
  | initOp name now =>
    cases hsp : s (project_path name) with
    | some q =>
      exact ⟨pd, by rw [exec_initOp_some s name now q hsp]; exact h, Inv.refl pd⟩
    | none =>
      refine ⟨pd, ?_, Inv.refl pd⟩
      rw [exec_initOp_none s name now hsp]
      have hk : k ≠ project_path (newProject name now).name := by
        intro he
        have he' : k = project_path name := he
        rw [he', hsp] at h
        cases h
      rw [save_project_frame s _ k hk]
      exact h
  | addRuleOp proj source title text sec page now =>
    cases hsp : s (project_path proj) with
    | none =>
      exact ⟨pd, by
        rw [exec_addRuleOp_none s proj source title text sec page now hsp]; exact h,
        Inv.refl pd⟩
    | some q =>
      rw [exec_addRuleOp_some s proj source title text sec page now q hsp]
      refine write_case _ (by
        have : ({ Project.from_dict q with rules := (Project.from_dict q).rules ++
            [{ source := source, title := title, text := text
               «section» := pyOr sec "", page := pyOr page ""
               created_at := now }] } : Project).name = q.name := rfl
        rw [this]
        exact hW (project_path proj) q hsp) ?_
      intro hk
      have hpd : pd = q := by
        have hk2 : k = project_path proj := hk
        rw [hk2, hsp] at h
        injection h with h'
        exact h'.symm
      subst hpd
      have hinv : Inv (Project.to_dict (Project.from_dict pd))
          (Project.to_dict { Project.from_dict pd with
            rules := (Project.from_dict pd).rules ++
              [{ source := source, title := title, text := text
                 «section» := pyOr sec "", page := pyOr page ""
                 created_at := now }] }) :=
        ProjInv.toDict _ _ ⟨rfl, rfl, ⟨_, rfl⟩, ⟨[], by simp⟩⟩
      simpa using hinv
  | addSourceOp proj name path notes now =>
    cases hsp : s (project_path proj) with
    | none =>
      exact ⟨pd, by
        rw [exec_addSourceOp_none s proj name path notes now hsp]; exact h,
        Inv.refl pd⟩
    | some q =>
      rw [exec_addSourceOp_some s proj name path notes now q hsp]
      refine write_case _ (hW (project_path proj) q hsp) ?_
      intro hk
      have hpd : pd = q := by
        have hk2 : k = project_path proj := hk
        rw [hk2, hsp] at h
        injection h with h'
        exact h'.symm
      subst hpd
      have hinv : Inv (Project.to_dict (Project.from_dict pd))
          (Project.to_dict { Project.from_dict pd with
            sources := (Project.from_dict pd).sources ++
              [{ name := name, path := path, notes := pyOr notes ""
                 added_at := now }] }) :=
        ProjInv.toDict _ _ ⟨rfl, rfl, ⟨[], by simp⟩, ⟨_, rfl⟩⟩
      simpa using hinv
  | updateStepOp proj step status notes =>
    cases hsp : s (project_path proj) with
    | none =>
      exact ⟨pd, by
        rw [exec_updateStepOp_none s proj step status notes hsp]; exact h,
        Inv.refl pd⟩
    | some q =>
      cases hus : updateSteps (Project.from_dict q).steps step status notes with
      | none =>
        exact ⟨pd, by
          rw [exec_updateStepOp_nomatch s proj step status notes q hsp hus]; exact h,
          Inv.refl pd⟩
      | some res =>
        rw [exec_updateStepOp_match s proj step status notes q res hsp hus]
        refine write_case _ (hW (project_path proj) q hsp) ?_
        intro hk
        have hpd : pd = q := by
          have hk2 : k = project_path proj := hk
          rw [hk2, hsp] at h
          injection h with h'
          exact h'.symm
        subst hpd
        obtain ⟨hnames, -⟩ :=
          updateSteps_names (Project.from_dict pd).steps res step status notes hus
        have hinv : Inv (Project.to_dict (Project.from_dict pd))
            (Project.to_dict { Project.from_dict pd with steps := res }) :=
          ProjInv.toDict _ _ ⟨rfl, hnames, ⟨[], by simp⟩, ⟨[], by simp⟩⟩
        simpa using hinv

/-- A sequence of commands preserves the record invariant at every
occupied path of a well-keyed store. -/
theorem execAll_inv (ops : List Op) (s : Store) (k : String)
    (pd : ProjectDict) (hW : WellKeyed s) (h : s k = some pd) :
    ∃ pd', execAll s ops k = some pd' ∧ Inv pd pd' := by
  induction ops generalizing s pd with
  | nil => exact ⟨pd, h, Inv.refl pd⟩
  | cons op ops ih =>
    obtain ⟨pd1, h1, hinv1⟩ := exec_inv s op k pd hW h
    obtain ⟨pd', h', hinv'⟩ := ih (exec s op) pd1 (exec_wellKeyed s op hW) h1
    exact ⟨pd', h', Inv.trans pd pd1 pd' hinv1 hinv'⟩

theorem demoStore_wellKeyed : WellKeyed demoStore :=
  exec_wellKeyed emptyStore (.initOp "Acme HQ" "t0") wellKeyed_empty

/-! ### Claims -/

/-- C1: serialization round-trip law.  For every in-memory `Project`
aggregate (in particular every aggregate reached by any sequence of
appendRule/appendSource/updateStep operations) and every store,
`save_project` followed by `load_project` of `project.name` returns an
aggregate equal field-for-field — name, project_type, created_at, and
the full ordered rules, steps and sources sequences — to the in-memory
state immediately before the save. -/
theorem save_load_roundtrip (s : Store) (p : Project) :
    load_project (save_project s p) p.name = Except.ok p :=
  load_after_save s p

/-- C2: for every project name with no existing record, `create(name)`
succeeds and a subsequent `load(name)` yields a project whose steps are
exactly the seven canonical step names in order, each with status
"pending" and empty notes, with project_type "PIAM&V" and empty rules
and sources. -/
theorem create_then_load (s : Store) (name now : String)
    (h : s (project_path name) = none) :
    ∃ s' p, init_project s name now = Except.ok (s', p) ∧
      load_project s' name = Except.ok p ∧
      p.steps =
        [ ⟨"Project scoping", "pending", ""⟩
        , ⟨"Baseline definition", "pending", ""⟩
        , ⟨"Measurement & verification plan", "pending", ""⟩
        , ⟨"Implementation & commissioning", "pending", ""⟩
        , ⟨"Data collection", "pending", ""⟩
        , ⟨"Analysis & savings calculation", "pending", ""⟩
        , ⟨"Reporting & assurance", "pending", ""⟩ ] ∧
      p.project_type = "PIAM&V" ∧ p.rules = [] ∧ p.sources = [] ∧
      p.name = name ∧ p.created_at = now := by
  refine ⟨save_project s (newProject name now), newProject name now,
    init_project_of_none s name now h, ?_, rfl, rfl, rfl, rfl, rfl, rfl⟩
  exact load_after_save s (newProject name now)

/-- C2 witness: a concrete instance on the empty store. -/
theorem create_then_load_witness :
    emptyStore (project_path "Acme HQ") = none ∧
    (∃ s' p, init_project emptyStore "Acme HQ" "t0" = Except.ok (s', p) ∧
      load_project s' "Acme HQ" = Except.ok p ∧
      p.steps =
        [ ⟨"Project scoping", "pending", ""⟩
        , ⟨"Baseline definition", "pending", ""⟩
        , ⟨"Measurement & verification plan", "pending", ""⟩
        , ⟨"Implementation & commissioning", "pending", ""⟩
        , ⟨"Data collection", "pending", ""⟩
        , ⟨"Analysis & savings calculation", "pending", ""⟩
        , ⟨"Reporting & assurance", "pending", ""⟩ ] ∧
      p.project_type = "PIAM&V" ∧ p.rules = [] ∧ p.sources = [] ∧
      p.name = "Acme HQ" ∧ p.created_at = "t0") :=
  ⟨rfl, create_then_load emptyStore "Acme HQ" "t0" rfl⟩

/-- C6: `create(name)` on an already-present record fails with
`AlreadyExists`, the filesystem is untouched, and the existing project's
persisted payload is unchanged (no write occurs before the existence
check fails). -/
theorem init_already_exists (s : Store) (name now : String) (pd : ProjectDict)
    (h : s (project_path name) = some pd) :
    init_project s name now = Except.error (Err.alreadyExists name) ∧
    exec s (.initOp name now) = s ∧
    exec s (.initOp name now) (project_path name) = some pd := by
  refine ⟨init_project_of_some s name now pd h,
    exec_initOp_some s name now pd h, ?_⟩
  rw [exec_initOp_some s name now pd h]
  exact h

/-- C6 witness: a second `init --name "Acme HQ"` against the store that
already holds that project. -/
theorem init_already_exists_witness :
    demoStore (project_path "Acme HQ") = some demoProject.to_dict ∧
    (init_project demoStore "Acme HQ" "t1" =
        Except.error (Err.alreadyExists "Acme HQ") ∧
      exec demoStore (.initOp "Acme HQ" "t1") = demoStore ∧
      exec demoStore (.initOp "Acme HQ" "t1") (project_path "Acme HQ") =
        some demoProject.to_dict) :=
  ⟨rfl, init_already_exists demoStore "Acme HQ" "t1" demoProject.to_dict rfl⟩

/-- C8: `load(name)` fails with `NotFound` exactly when no record exists
at the name's record path, and succeeds (returning the full aggregate)
exactly when a persisted record exists for that name. -/
theorem load_not_found (s : Store) (name : String) :
    (load_project s name = Except.error (Err.notFound name) ↔
      s (project_path name) = none) ∧
    ((∃ p, load_project s name = Except.ok p) ↔
      ∃ pd, s (project_path name) = some pd) := by
  unfold load_project
  cases h : s (project_path name) <;> simp

/-- C10: the name-to-storage-key mapping is not injective.  "Acme HQ"
and "Acme-HQ" are distinct names with the same record path, so after
`init --name "Acme HQ"`, an `init --name "Acme-HQ"` fails with
`AlreadyExists`, a `load` under "Acme-HQ" reads the record created under
"Acme HQ", and an `update_step` addressed under "Acme-HQ" overwrites
that same record. -/
theorem token_collision :
    ("Acme HQ" : String) ≠ "Acme-HQ" ∧
    project_path "Acme HQ" = project_path "Acme-HQ" ∧
    init_project demoStore "Acme-HQ" "t1" =
      Except.error (Err.alreadyExists "Acme-HQ") ∧
    load_project demoStore "Acme-HQ" = Except.ok demoProject ∧
    (∃ s' p',
      update_step demoStore "Acme-HQ" "Project scoping" "complete" none =
        Except.ok (s', p') ∧
      s' (project_path "Acme HQ") = some p'.to_dict ∧
      p'.name = "Acme HQ" ∧
      p'.steps.head? = some ⟨"Project scoping", "complete", ""⟩) := by
  refine ⟨by decide, by decide, rfl, rfl, _, _, rfl, rfl, rfl, rfl⟩

/-- C3: a successful `updateStep` rewrites exactly the first step (in
storage order) whose name matches the requested step name
case-insensitively: its status is overwritten unconditionally, and its
notes are overwritten only when the supplied notes value is non-empty,
otherwise the prior notes are preserved. -/
theorem update_step_first_match (s : Store)
    (projName stepName status : String) (notes : Option String)
    (p : Project) (pre post : List ProjectStep) (st : ProjectStep)
    (hload : load_project s projName = Except.ok p)
    (hsplit : p.steps = pre ++ st :: post)
    (hpre : ∀ x ∈ pre, pyLower x.name ≠ pyLower stepName)
    (hst : pyLower st.name = pyLower stepName) :
    update_step s projName stepName status notes =
      Except.ok (save_project s
          { p with steps := pre ++
              { st with status := status, notes := pyOr notes st.notes } :: post },
        { p with steps := pre ++
              { st with status := status, notes := pyOr notes st.notes } :: post }) ∧
    (∀ n, notes = some n → n ≠ "" → pyOr notes st.notes = n) ∧
    ((notes = none ∨ notes = some "") → pyOr notes st.notes = st.notes) := by
  refine ⟨update_step_eq s projName stepName status notes p pre post st
    hload hsplit hpre hst, ?_, ?_⟩
  · rintro n rfl hn
    simp [pyOr, hn]
  · rintro (rfl | rfl) <;> simp [pyOr]

/-- C3 witness: `step --project "Acme HQ" --step "baseline definition"
--status complete --notes ok` on the freshly initialized store. -/
theorem update_step_first_match_witness :
    load_project demoStore "Acme HQ" = Except.ok demoProject ∧
    demoProject.steps =
      [⟨"Project scoping", "pending", ""⟩] ++
        (⟨"Baseline definition", "pending", ""⟩ : ProjectStep) ::
        [ ⟨"Measurement & verification plan", "pending", ""⟩
        , ⟨"Implementation & commissioning", "pending", ""⟩
        , ⟨"Data collection", "pending", ""⟩
        , ⟨"Analysis & savings calculation", "pending", ""⟩
        , ⟨"Reporting & assurance", "pending", ""⟩ ] ∧
    (∀ x ∈ [(⟨"Project scoping", "pending", ""⟩ : ProjectStep)],
      pyLower x.name ≠ pyLower "baseline definition") ∧
    pyLower "Baseline definition" = pyLower "baseline definition" ∧
    (update_step demoStore "Acme HQ" "baseline definition" "complete" (some "ok") =
      Except.ok (save_project demoStore
          { demoProject with steps :=
              [⟨"Project scoping", "pending", ""⟩] ++
                (⟨"Baseline definition", "complete", pyOr (some "ok") ""⟩ : ProjectStep) ::
                [ ⟨"Measurement & verification plan", "pending", ""⟩
                , ⟨"Implementation & commissioning", "pending", ""⟩
                , ⟨"Data collection", "pending", ""⟩
                , ⟨"Analysis & savings calculation", "pending", ""⟩
                , ⟨"Reporting & assurance", "pending", ""⟩ ] },
        { demoProject with steps :=
              [⟨"Project scoping", "pending", ""⟩] ++
                (⟨"Baseline definition", "complete", pyOr (some "ok") ""⟩ : ProjectStep) ::
                [ ⟨"Measurement & verification plan", "pending", ""⟩
                , ⟨"Implementation & commissioning", "pending", ""⟩
                , ⟨"Data collection", "pending", ""⟩
                , ⟨"Analysis & savings calculation", "pending", ""⟩
                , ⟨"Reporting & assurance", "pending", ""⟩ ] }) ∧
      (∀ n, (some "ok" : Option String) = some n → n ≠ "" →
        pyOr (some "ok") "" = n) ∧
      (((some "ok" : Option String) = none ∨ (some "ok" : Option String) = some "") →
        pyOr (some "ok") "" = "")) :=
  ⟨rfl, rfl, by decide, by decide,
    update_step_first_match demoStore "Acme HQ" "baseline definition" "complete"
      (some "ok") demoProject
      [⟨"Project scoping", "pending", ""⟩]
      [ ⟨"Measurement & verification plan", "pending", ""⟩
      , ⟨"Implementation & commissioning", "pending", ""⟩
      , ⟨"Data collection", "pending", ""⟩
      , ⟨"Analysis & savings calculation", "pending", ""⟩
      , ⟨"Reporting & assurance", "pending", ""⟩ ]
      ⟨"Baseline definition", "pending", ""⟩
      rfl rfl (by decide) (by decide)⟩

/-- C4: `updateStep` with a step name matching no step fails with
`StepNotFound` carrying the ordered list of the project's step names,
and nothing is saved or mutated: the filesystem after the failed command
is identical to the one before it. -/
theorem update_step_not_found (s : Store)
    (projName stepName status : String) (notes : Option String)
    (p : Project)
    (hload : load_project s projName = Except.ok p)
    (hnone : ∀ st ∈ p.steps, pyLower st.name ≠ pyLower stepName) :
    update_step s projName stepName status notes =
      Except.error (Err.stepNotFound stepName
        (p.steps.map (fun st => st.name))) ∧
    exec s (.updateStepOp projName stepName status notes) = s := by
  have h1 := update_step_no_match s projName stepName status notes p hload hnone
  refine ⟨h1, ?_⟩
  unfold exec
  dsimp only
  rw [h1]

/-- C4 witness: `step --project "Acme HQ" --step "no such step"` on the
freshly initialized store. -/
theorem update_step_not_found_witness :
    load_project demoStore "Acme HQ" = Except.ok demoProject ∧
    (∀ st ∈ demoProject.steps, pyLower st.name ≠ pyLower "no such step") ∧
    (update_step demoStore "Acme HQ" "no such step" "complete" none =
      Except.error (Err.stepNotFound "no such step"
        (demoProject.steps.map (fun st => st.name))) ∧
      exec demoStore (.updateStepOp "Acme HQ" "no such step" "complete" none) =
        demoStore) :=
  ⟨rfl, by decide,
    update_step_not_found demoStore "Acme HQ" "no such step" "complete" none
      demoProject rfl (by decide)⟩

/-- C5: frame property of a successful `updateStep` on a well-keyed
store: only the matched step's status and notes may change; every other
step, the rules list, the sources list, and the project's name,
project_type and created_at are unchanged, both in the returned
in-memory aggregate and as subsequently loaded. -/
theorem update_step_frame (s : Store)
    (projName stepName status : String) (notes : Option String)
    (p : Project) (pre post : List ProjectStep) (st : ProjectStep)
    (hW : WellKeyed s)
    (hload : load_project s projName = Except.ok p)
    (hsplit : p.steps = pre ++ st :: post)
    (hpre : ∀ x ∈ pre, pyLower x.name ≠ pyLower stepName)
    (hst : pyLower st.name = pyLower stepName) :
    ∃ s' p', update_step s projName stepName status notes =
        Except.ok (s', p') ∧
      p'.name = p.name ∧ p'.project_type = p.project_type ∧
      p'.created_at = p.created_at ∧ p'.rules = p.rules ∧
      p'.sources = p.sources ∧
      p'.steps = pre ++
        { st with status := status, notes := pyOr notes st.notes } :: post ∧
      load_project s' projName = Except.ok p' := by
  refine ⟨_, _, update_step_eq s projName stepName status notes p pre post st
    hload hsplit hpre hst, rfl, rfl, rfl, rfl, rfl, rfl, ?_⟩
  obtain ⟨pd, hpd, hp⟩ := (load_project_ok_iff s projName p).mp hload
  have hkey : project_path p.name = project_path projName := by
    rw [hp]
    exact hW (project_path projName) pd hpd
  have hsave : save_project s
      { p with steps := pre ++
          { st with status := status, notes := pyOr notes st.notes } :: post }
      (project_path projName) =
      some (Project.to_dict { p with steps := pre ++
          { st with status := status, notes := pyOr notes st.notes } :: post }) := by
    unfold save_project
    rw [if_pos hkey.symm]
  unfold load_project
  rw [hsave]
  dsimp only
  rw [Project.from_dict_to_dict]

/-- C5 witness: `step --project "Acme HQ" --step "baseline definition"
--status in_progress` (no notes) on the freshly initialized store. -/
theorem update_step_frame_witness :
    WellKeyed demoStore ∧
    load_project demoStore "Acme HQ" = Except.ok demoProject ∧
    (∃ s' p', update_step demoStore "Acme HQ" "baseline definition"
        "in_progress" none = Except.ok (s', p') ∧
      p'.name = demoProject.name ∧
      p'.project_type = demoProject.project_type ∧
      p'.created_at = demoProject.created_at ∧
      p'.rules = demoProject.rules ∧
      p'.sources = demoProject.sources ∧
      p'.steps =
        [⟨"Project scoping", "pending", ""⟩] ++
          (⟨"Baseline definition", "in_progress", pyOr none ""⟩ : ProjectStep) ::
          [ ⟨"Measurement & verification plan", "pending", ""⟩
          , ⟨"Implementation & commissioning", "pending", ""⟩
          , ⟨"Data collection", "pending", ""⟩
          , ⟨"Analysis & savings calculation", "pending", ""⟩
          , ⟨"Reporting & assurance", "pending", ""⟩ ] ∧
      load_project s' "Acme HQ" = Except.ok p') :=
  ⟨demoStore_wellKeyed, rfl,
    update_step_frame demoStore "Acme HQ" "baseline definition" "in_progress"
      none demoProject
      [⟨"Project scoping", "pending", ""⟩]
      [ ⟨"Measurement & verification plan", "pending", ""⟩
      , ⟨"Implementation & commissioning", "pending", ""⟩
      , ⟨"Data collection", "pending", ""⟩
      , ⟨"Analysis & savings calculation", "pending", ""⟩
      , ⟨"Reporting & assurance", "pending", ""⟩ ]
      ⟨"Baseline definition", "pending", ""⟩
      demoStore_wellKeyed rfl rfl (by decide) (by decide)⟩

/-- C7: store-wide invariants preserved by every sequence of operations
on a well-keyed store: at every occupied record path, the step names
(count and identity) stay exactly as established at init, the rules and
sources lists only ever grow at the tail (so their lengths never
decrease and every already-stamped created_at/added_at timestamp is
untouched), and the project's creation timestamp never changes. -/
theorem store_invariants (ops : List Op) (s : Store) (k : String)
    (pd : ProjectDict) (hW : WellKeyed s) (h : s k = some pd) :
    ∃ pd', execAll s ops k = some pd' ∧
      pd'.steps.map StepDict.name = pd.steps.map StepDict.name ∧
      pd'.steps.length = pd.steps.length ∧
      pd.rules.length ≤ pd'.rules.length ∧
      pd.sources.length ≤ pd'.sources.length ∧
      (∃ t, pd'.rules = pd.rules ++ t) ∧
      (∃ t, pd'.sources = pd.sources ++ t) ∧
      pd'.created_at = pd.created_at := by
  obtain ⟨pd', h', hc, hn, ⟨t, ht⟩, ⟨u, hu⟩⟩ := execAll_inv ops s k pd hW h
  have hlen : pd'.steps.length = pd.steps.length := by
    have h2 := congrArg List.length hn
    simpa using h2
  exact ⟨pd', h', hn, hlen, by simp [ht], by simp [hu], ⟨t, ht⟩, ⟨u, hu⟩, hc⟩

/-- C7 witness: an add-rule then update-step sequence against the
freshly initialized store. -/
theorem store_invariants_witness :
    WellKeyed demoStore ∧
    demoStore (project_path "Acme HQ") = some demoProject.to_dict ∧
    (∃ pd', execAll demoStore
        [ .addRuleOp "Acme HQ" "IPMVP" "Baseline Period" "Define baseline"
            none none "t1"
        , .updateStepOp "Acme HQ" "project scoping" "complete" none ]
        (project_path "Acme HQ") = some pd' ∧
      pd'.steps.map StepDict.name =
        demoProject.to_dict.steps.map StepDict.name ∧
      pd'.steps.length = demoProject.to_dict.steps.length ∧
      demoProject.to_dict.rules.length ≤ pd'.rules.length ∧
      demoProject.to_dict.sources.length ≤ pd'.sources.length ∧
      (∃ t, pd'.rules = demoProject.to_dict.rules ++ t) ∧
      (∃ t, pd'.sources = demoProject.to_dict.sources ++ t) ∧
      pd'.created_at = demoProject.to_dict.created_at) :=
  ⟨demoStore_wellKeyed, rfl,
    store_invariants
      [ .addRuleOp "Acme HQ" "IPMVP" "Baseline Period" "Define baseline"
          none none "t1"
      , .updateStepOp "Acme HQ" "project scoping" "complete" none ]
      demoStore (project_path "Acme HQ") demoProject.to_dict
      demoStore_wellKeyed rfl⟩

/-- C9: storage-key mapping.  The record path of a name is obtained by
trimming leading/trailing whitespace and replacing every space with a
hyphen (plus the fixed directory and extension), and every operation
addresses the store through this same mapping: a command leaves every
other path untouched, `save_project` writes exactly at the path of the
project's name, and `load_project` reads only the path of the requested
name. -/
theorem storage_key_mapping (s : Store) (op : Op) (k : String)
    (hW : WellKeyed s) (hk : k ≠ project_path op.target) :
    project_path op.target =
      "data/projects/" ++ replaceSpaces (pyStrip op.target) ++ ".json" ∧
    exec s op k = s k ∧
    (∀ p : Project, save_project s p (project_path p.name) = some p.to_dict ∧
      ∀ k2, k2 ≠ project_path p.name → save_project s p k2 = s k2) ∧
    (∀ s2 : Store, s2 (project_path op.target) = s (project_path op.target) →
      load_project s2 op.target = load_project s op.target) := by
  refine ⟨rfl, exec_key s op hW k hk,
    fun p => ⟨save_project_self s p,
      fun k2 hk2 => save_project_frame s p k2 hk2⟩,
    fun s2 h2 => ?_⟩
  unfold load_project
  rw [h2]

/-- C9 witness: an add-rule command against the freshly initialized
store does not touch an unrelated path. -/
theorem storage_key_mapping_witness :
    WellKeyed demoStore ∧
    ("data/projects/Other.json" : String) ≠
      project_path (Op.addRuleOp "Acme HQ" "IPMVP" "Baseline Period"
        "Define baseline" none none "t1").target ∧
    (project_path (Op.addRuleOp "Acme HQ" "IPMVP" "Baseline Period"
        "Define baseline" none none "t1").target =
      "data/projects/" ++ replaceSpaces (pyStrip (Op.addRuleOp "Acme HQ" "IPMVP"
        "Baseline Period" "Define baseline" none none "t1").target) ++ ".json" ∧
    exec demoStore (Op.addRuleOp "Acme HQ" "IPMVP" "Baseline Period"
        "Define baseline" none none "t1") "data/projects/Other.json" =
      demoStore "data/projects/Other.json" ∧
    (∀ p : Project,
      save_project demoStore p (project_path p.name) = some p.to_dict ∧
      ∀ k2, k2 ≠ project_path p.name →
        save_project demoStore p k2 = demoStore k2) ∧
    (∀ s2 : Store,
      s2 (project_path (Op.addRuleOp "Acme HQ" "IPMVP" "Baseline Period"
          "Define baseline" none none "t1").target) =
        demoStore (project_path (Op.addRuleOp "Acme HQ" "IPMVP" "Baseline Period"
          "Define baseline" none none "t1").target) →
      load_project s2 (Op.addRuleOp "Acme HQ" "IPMVP" "Baseline Period"
          "Define baseline" none none "t1").target =
        load_project demoStore (Op.addRuleOp "Acme HQ" "IPMVP" "Baseline Period"
          "Define baseline" none none "t1").target)) :=
  ⟨demoStore_wellKeyed, by decide,
    storage_key_mapping demoStore
      (Op.addRuleOp "Acme HQ" "IPMVP" "Baseline Period" "Define baseline"
        none none "t1")
      "data/projects/Other.json" demoStore_wellKeyed (by decide)⟩

end Piamv

